import Mathlib

/-!
Shallow embedding of `src/main.py` (YouTube Liked Videos Cleaner).

The program is a sequential pipeline: paginate the liked-videos playlist,
resolve each video's duration in batches of 50, filter entries whose
duration is strictly below a threshold, and delete the selected playlist
items, with heuristic quota-error detection by substring match on error
text.

Remote calls are modelled as oracle functions supplied as parameters;
Python exceptions become `CallResult` / `LookupResult` / `FetchResult`
values carrying the error message string; Python floats (durations in
minutes, the threshold) are modelled as rationals `ℚ`; Python dicts keyed
by video id are modelled as association lists with first-match lookup and
replace-or-append insertion (matching dict assignment/lookup semantics).
Non-negative CLI integers (`--batch-size`, `--start-index`) are modelled
as `Nat`.
-/

/-- A record of the liked playlist, as built in `get_liked_videos`
(src/main.py lines 82-88): the dict
`{id: videoId, playlist_item_id: item id, title: title}`. -/
structure LikedEntry where
  id : String
  playlist_item_id : String
  title : String
deriving DecidableEq

/-- A liked entry whose duration has been resolved; `main` stores the
resolved duration on the entry (`video['duration_minutes'] = duration`,
line 204) before appending it to `videos_to_unlike`. -/
structure SelectedVideo where
  entry : LikedEntry
  duration_minutes : ℚ
deriving DecidableEq

/-- Outcome of one remote mutation call: normal return, or a raised
exception carrying its message text `str(e)`. -/
inductive CallResult where
  | ok : CallResult
  | err : String → CallResult
deriving DecidableEq

/-- `pat` occurs as a contiguous sublist of `l` (Python's `in` on strings). -/
def listHasSub (pat : List Char) : List Char → Bool
  | [] => pat.isPrefixOf []
  | c :: rest => pat.isPrefixOf (c :: rest) || listHasSub pat rest

/-- ASCII lowering of one character (`str.lower()` restricted to the
ASCII error messages the program inspects). -/
def lowerChar (c : Char) : Char :=
  if 65 ≤ c.toNat ∧ c.toNat ≤ 90 then Char.ofNat (c.toNat + 32) else c

/-- The quota heuristic used at src/main.py lines 99, 131, 155:
`"quota" in str(e).lower()`. -/
def isQuotaError (msg : String) : Bool :=
  listHasSub "quota".data (msg.data.map lowerChar)

/-- Modelled from the spec: the external `isodate.parse_duration` call
(src/main.py line 122) is a third-party library, not repository code; the
spec describes it as parsing "each returned duration from an ISO-8601
duration representation into total seconds". This models the time-only
`PT..H..M..S` fragment ISO-8601 uses for video lengths: after the `PT`
prelude, a sequence of decimal fields each terminated by `H` (hours),
`M` (minutes) or `S` (seconds), summed into total seconds. `pending` is
the numeral being accumulated, `total` the seconds so far; any other
character, or a trailing numeral with no designator, fails. -/
def parseDurBody : List Char → Option Nat → Nat → Option Nat
  | [], none, total => some total
  | [], some _, _ => none
  | c :: rest, pending, total =>
    if c.isDigit then
      parseDurBody rest (some ((pending.getD 0) * 10 + (c.toNat - 48))) total
    else
      match pending with
      | none => none
      | some n =>
        if c = 'H' then parseDurBody rest none (total + n * 3600)
        else if c = 'M' then parseDurBody rest none (total + n * 60)
        else if c = 'S' then parseDurBody rest none (total + n)
        else none

/-- Modelled from the spec: `isodate.parse_duration` on a `PT`-form
duration string, returning total seconds (`duration.total_seconds()`),
`none` when the string is not a well-formed time-only duration. -/
def parse_duration (s : String) : Option Nat :=
  match s.data with
  | 'P' :: 'T' :: rest => parseDurBody rest none 0
  | _ => none

/-- src/main.py line 123: `duration_minutes = duration.total_seconds() / 60`. -/
def durationMinutes (secs : Nat) : ℚ :=
  (secs : ℚ) / 60

/-! ## The filter (src/main.py lines 197-206)

`main` walks `liked_videos` once: entries whose id is absent from
`video_durations` get a warning and are skipped; entries with a resolved
duration strictly below `min_duration` are appended to
`videos_to_unlike`. -/

/-- The filter loop of `main` (lines 197-206). `dur` is the
`video_durations.get` lookup. Returns `(videos_to_unlike, warned)` where
`warned` collects, in order, the entries for which the
"Warning: missing duration" message is printed (line 201). -/
def find_videos_to_unlike (dur : String → Option ℚ) (thr : ℚ) :
    List LikedEntry → List SelectedVideo × List LikedEntry
  | [] => ([], [])
  | v :: rest =>
    let r := find_videos_to_unlike dur thr rest
    match dur v.id with
    | none => (r.1, v :: r.2)
    | some d => (if d < thr then ⟨v, d⟩ :: r.1 else r.1, r.2)

/-- The filter's selection test on one entry: duration resolved and
strictly below the threshold. -/
def isSelectedPred (dur : String → Option ℚ) (thr : ℚ)
    (v : LikedEntry) : Bool :=
  match dur v.id with
  | none => false
  | some d => decide (d < thr)

/-- An entry resolved but retained: duration not strictly below the
threshold. -/
def isRetainedPred (dur : String → Option ℚ) (thr : ℚ)
    (v : LikedEntry) : Bool :=
  match dur v.id with
  | none => false
  | some d => decide ¬(d < thr)

/-- An entry whose duration did not resolve. -/
def isUnresolvedPred (dur : String → Option ℚ) (v : LikedEntry) : Bool :=
  (dur v.id).isNone

/-- The entries the filter never selects because their duration did not
resolve (spec-side view of the warned set, for counting). -/
def unresolvedEntries (dur : String → Option ℚ) (vs : List LikedEntry) :
    List LikedEntry :=
  vs.filter (isUnresolvedPred dur)

/-- The entries resolved but retained (duration not strictly below the
threshold); spec-side view, for counting. -/
def retainedEntries (dur : String → Option ℚ) (thr : ℚ)
    (vs : List LikedEntry) : List LikedEntry :=
  vs.filter (isRetainedPred dur thr)

/-! ## The remover `unlike_videos` (src/main.py lines 137-159)

For each entry in order, issue one `playlistItems().delete` call; on
success increment the count; on an exception print the message, break if
it is a quota error, otherwise continue with the next entry; return the
count. `del` is the per-entry outcome oracle. -/

/-- Returned count of `unlike_videos`: successes accumulated until the
list ends or a quota error breaks the loop. -/
def unlike_videos (del : SelectedVideo → CallResult) :
    List SelectedVideo → Nat
  | [] => 0
  | v :: rest =>
    match del v with
    | CallResult.ok => unlike_videos del rest + 1
    | CallResult.err m =>
      if isQuotaError m then 0 else unlike_videos del rest

/-- Trace of deletion calls actually issued by `unlike_videos` (the
`playlist_item_id` passed to each `playlistItems().delete`): every loop
iteration issues its call; after a quota break no further call is made. -/
def unlikeCalls (del : SelectedVideo → CallResult) :
    List SelectedVideo → List String
  | [] => []
  | v :: rest =>
    v.entry.playlist_item_id ::
      match del v with
      | CallResult.ok => unlikeCalls del rest
      | CallResult.err m =>
        if isQuotaError m then [] else unlikeCalls del rest

/-- Trace of error messages printed by `unlike_videos` (line 153), in
order, up to and including a quota error that breaks the loop. -/
def unlikeErrors (del : SelectedVideo → CallResult) :
    List SelectedVideo → List String
  | [] => []
  | v :: rest =>
    match del v with
    | CallResult.ok => unlikeErrors del rest
    | CallResult.err m =>
      m :: if isQuotaError m then [] else unlikeErrors del rest

/-- Results of the deletion calls `unlike_videos` actually issues, in
order (stopping after a quota error, which receives no successor call). -/
def issuedResults (del : SelectedVideo → CallResult) :
    List SelectedVideo → List CallResult
  | [] => []
  | v :: rest =>
    del v ::
      match del v with
      | CallResult.ok => issuedResults del rest
      | CallResult.err m =>
        if isQuotaError m then [] else issuedResults del rest

/-- A call result is a success. -/
def isOkResult : CallResult → Bool
  | CallResult.ok => true
  | CallResult.err _ => false

/-! ## The paginated fetcher `get_liked_videos` (src/main.py lines 72-103)

A `while True` loop: fetch one page of playlist items, append the
records, follow `nextPageToken` until absent; on an exception print the
message and break only when it is a quota error — a non-quota error
leaves the loop running, which retries the same page token on the next
iteration. Modelled with an attempt-indexed oracle (so a retry can get a
different answer) and fuel for the unbounded loop. -/

/-- Outcome of one `playlistItems().list` page request: a page of
records with an optional continuation token, or a raised exception. -/
inductive FetchResult where
  | page : List LikedEntry → Option String → FetchResult
  | err : String → FetchResult
deriving DecidableEq

/-- The page loop of `get_liked_videos` (lines 72-101). `fetch` maps
(attempt number, current page token) to the request outcome; `tok` is
`next_page_token`, `acc` the `liked_videos` accumulated so far. Fuel
bounds the number of iterations modelled (the Python loop is unbounded
and retries a failing page forever on persistent non-quota errors). -/
def get_liked_videos (fetch : Nat → Option String → FetchResult) :
    Nat → Nat → Option String → List LikedEntry → List LikedEntry
  | 0, _, _, acc => acc
  | fuel + 1, attempt, tok, acc =>
    match fetch attempt tok with
    | FetchResult.page items none => acc ++ items
    | FetchResult.page items (some t) =>
      get_liked_videos fetch fuel (attempt + 1) (some t) (acc ++ items)
    | FetchResult.err m =>
      if isQuotaError m then acc
      else get_liked_videos fetch fuel (attempt + 1) tok acc

/-! ## The duration resolver `get_video_durations` (src/main.py lines 105-135)

`for i in range(0, len(video_ids), 50)`: slice a batch of at most 50
ids, issue one `videos().list` request, parse each returned item's
ISO-8601 duration and store minutes under the item's id in the
`video_durations` dict; on an exception print the message, break on a
quota error, otherwise continue with the next batch. -/

/-- Outcome of one `videos().list` batch request: items as
(video id, ISO-8601 duration string) pairs, or a raised exception. -/
inductive LookupResult where
  | items : List (String × String) → LookupResult
  | err : String → LookupResult
deriving DecidableEq

/-- Python dict assignment `d[k] = v`: replace the existing binding of
`k`, else append. -/
def dictInsert (d : List (String × ℚ)) (k : String) (v : ℚ) :
    List (String × ℚ) :=
  match d with
  | [] => [(k, v)]
  | p :: rest => if p.1 = k then (k, v) :: rest else p :: dictInsert rest k v

/-- Python dict lookup `d.get(k)` on the association-list model. -/
def dictGet (d : List (String × ℚ)) (k : String) : Option ℚ :=
  (d.find? fun p => p.1 == k).map fun p => p.2

/-- The inner item loop (lines 119-125): parse each item's duration and
store minutes under its id. A parse exception aborts the rest of the
batch (the surrounding `try` catches it), keeping items already stored. -/
def storeItems : List (String × String) → List (String × ℚ) →
    List (String × ℚ)
  | [], store => store
  | (vid, dstr) :: rest, store =>
    match parse_duration dstr with
    | none => store
    | some secs => storeItems rest (dictInsert store vid (durationMinutes secs))

/-- The batch loop of `get_video_durations`: returns the
`video_durations` store and the trace of batch requests issued. A quota
error breaks (its request was still issued); any other error moves on to
the next batch. -/
def durFetch (lookup : List String → LookupResult) :
    List String → List (String × ℚ) →
    List (String × ℚ) × List (List String)
  | [], store => (store, [])
  | i :: ids, store =>
    let batch := (i :: ids).take 50
    match lookup batch with
    | LookupResult.err m =>
      if isQuotaError m then (store, [batch])
      else
        let r := durFetch lookup ((i :: ids).drop 50) store
        (r.1, batch :: r.2)
    | LookupResult.items xs =>
      let r := durFetch lookup ((i :: ids).drop 50) (storeItems xs store)
      (r.1, batch :: r.2)
termination_by ids _ => ids.length
decreasing_by all_goals simp [List.length_drop]; omega

/-- `get_video_durations` (lines 105-135): the duration store built from
all batches. -/
def get_video_durations (lookup : List String → LookupResult)
    (video_ids : List String) : List (String × ℚ) :=
  (durFetch lookup video_ids []).1

/-- The batch requests `get_video_durations` issues, in order. -/
def durRequests (lookup : List String → LookupResult)
    (video_ids : List String) : List (List String) :=
  (durFetch lookup video_ids []).2

/-- The successive slices `video_ids[i:i+50]` for `i = 0, 50, 100, ...`:
the batches the resolver submits when no quota error cuts it short. -/
def chunks50 : List String → List (List String)
  | [] => []
  | i :: ids => (i :: ids).take 50 :: chunks50 ((i :: ids).drop 50)
termination_by ids => ids.length
decreasing_by simp [List.length_drop]; omega

/-- The per-batch mapping a response denotes: id ↦ parsed minutes, in
response order (items that fail to parse denote nothing). -/
def parsedMap (xs : List (String × String)) : List (String × ℚ) :=
  xs.filterMap fun p => (parse_duration p.2).map fun n => (p.1, durationMinutes n)

/-! ## `main` after fetching (src/main.py lines 188-241)

Inputs: the CLI arguments, the `video_durations.get` lookup, the
deletion oracle, and the fetched `liked_videos`. `main` exits early when
no videos were fetched (line 190) or when `--start-index` is at least
the number of selected videos (line 215); otherwise it slices the
selection at `--start-index` (line 216), and unless `--dry-run` is set
passes the first `--batch-size` remaining entries to `unlike_videos`
(line 232). -/

/-- The CLI arguments of src/main.py lines 163-172 that affect control
flow after fetching. -/
structure Args where
  min_duration : ℚ
  dry_run : Bool
  batch_size : Nat
  start_index : Nat
deriving DecidableEq

/-- Observable outcome of one run of `main` past the fetch stage. -/
structure MainResult where
  /-- `videos_to_unlike` as first computed by the filter (lines 197-206);
  `[]` when `main` returned before filtering. -/
  selected : List SelectedVideo
  /-- `videos_to_unlike` after the optional `--start-index` slice
  (line 216); `[]` on an early exit. -/
  remaining : List SelectedVideo
  /-- The list passed to `unlike_videos` (line 232); `[]` on dry run or
  early exit. -/
  processed : List SelectedVideo
  /-- Playlist-item ids of the deletion calls issued. -/
  calls : List String
  /-- `unliked_count` returned by `unlike_videos`; `0` when it never ran. -/
  count : Nat
  /-- `main` returned at line 190 or line 215. -/
  exitedEarly : Bool
deriving DecidableEq

/-- Lines 227-241: skip entirely when nothing is selected, report only on
`--dry-run`, otherwise remove the first `batch_size` remaining entries. -/
def finishRun (args : Args) (del : SelectedVideo → CallResult)
    (sel rem : List SelectedVideo) : MainResult :=
  if rem = [] then ⟨sel, rem, [], [], 0, false⟩
  else if args.dry_run then ⟨sel, rem, [], [], 0, false⟩
  else
    let proc := rem.take args.batch_size
    ⟨sel, rem, proc, unlikeCalls del proc, unlike_videos del proc, false⟩

/-- `main` from line 188 on: early exit on an empty liked set, filter,
optional start-index slice (with its own early exit), then `finishRun`. -/
def mainRun (args : Args) (dur : String → Option ℚ)
    (del : SelectedVideo → CallResult) (liked_videos : List LikedEntry) :
    MainResult :=
  match liked_videos with
  | [] => ⟨[], [], [], [], 0, true⟩
  | v :: vs =>
    let sel := (find_videos_to_unlike dur args.min_duration (v :: vs)).1
    if 0 < args.start_index then
      if sel.length ≤ args.start_index then ⟨sel, [], [], [], 0, true⟩
      else finishRun args del sel (sel.drop args.start_index)
    else finishRun args del sel sel

example : isQuotaError "HttpError 403: quotaExceeded" = true := by decide
example : isQuotaError "boom" = false := by decide
example : parse_duration "PT1H2M3S" = some 3723 := by decide
example : parse_duration "PT2M" = some 120 := by decide
example : parse_duration "PT5M30S" = some 330 := by decide
example : parse_duration "2M" = none := by decide

/-! ## Lemmas about the filter -/

/-- The selected entries are the input entries whose duration resolves
strictly below the threshold, kept in input order. -/
theorem find_videos_map_entry (dur : String → Option ℚ) (thr : ℚ)
    (vs : List LikedEntry) :
    ((find_videos_to_unlike dur thr vs).1.map SelectedVideo.entry) =
      vs.filter (isSelectedPred dur thr) := by
  induction vs with
  | nil => rfl
  | cons v rest ih =>
    simp only [find_videos_to_unlike, List.filter_cons]
    cases h : dur v.id with
    | none => simpa [isSelectedPred, h] using ih
    | some d =>
      by_cases hd : d < thr
      · simpa [isSelectedPred, h, hd] using ih
      · simpa [isSelectedPred, h, hd] using ih

/-- Membership in the selection: exactly the entries with a resolved
duration strictly below the threshold. -/
theorem mem_find_videos_iff (dur : String → Option ℚ) (thr : ℚ)
    (vs : List LikedEntry) (s : SelectedVideo) :
    s ∈ (find_videos_to_unlike dur thr vs).1 ↔
      s.entry ∈ vs ∧ dur s.entry.id = some s.duration_minutes ∧
        s.duration_minutes < thr := by
  induction vs with
  | nil => simp [find_videos_to_unlike]
  | cons v rest ih =>
    simp only [find_videos_to_unlike, List.mem_cons]
    cases h : dur v.id with
    | none =>
      rw [ih]
      constructor
      · rintro ⟨h1, h2, h3⟩
        exact ⟨Or.inr h1, h2, h3⟩
      · rintro ⟨h1 | h1, h2, h3⟩
        · rw [h1, h] at h2
          cases h2
        · exact ⟨h1, h2, h3⟩
    | some d =>
      by_cases hd : d < thr
      · simp only [hd, if_pos, List.mem_cons, ih]
        constructor
        · rintro (rfl | ⟨h1, h2, h3⟩)
          · exact ⟨Or.inl rfl, h, hd⟩
          · exact ⟨Or.inr h1, h2, h3⟩
        · rintro ⟨h1 | h1, h2, h3⟩
          · left
            rw [h1, h] at h2
            cases s with
            | mk e dm =>
              cases h2
              simp only at h1
              rw [h1]
          · exact Or.inr ⟨h1, h2, h3⟩
      · simp only [hd, if_neg, not_false_iff, ih]
        constructor
        · rintro ⟨h1, h2, h3⟩
          exact ⟨Or.inr h1, h2, h3⟩
        · rintro ⟨h1 | h1, h2, h3⟩
          · rw [h1, h] at h2
            cases h2
            exact absurd h3 hd
          · exact ⟨h1, h2, h3⟩

/-- The warned list of the filter pass is exactly the entries whose
duration did not resolve, in input order. -/
theorem find_videos_warned (dur : String → Option ℚ) (thr : ℚ)
    (vs : List LikedEntry) :
    (find_videos_to_unlike dur thr vs).2 = unresolvedEntries dur vs := by
  induction vs with
  | nil => rfl
  | cons v rest ih =>
    simp only [find_videos_to_unlike, unresolvedEntries, List.filter_cons]
    cases h : dur v.id with
    | none => simpa [h, unresolvedEntries, isUnresolvedPred] using ih
    | some d =>
      by_cases hd : d < thr <;>
        simpa [h, hd, unresolvedEntries, isUnresolvedPred] using ih

/-- The three filter predicates partition any entry list by count. -/
theorem filter_partition_aux (dur : String → Option ℚ) (thr : ℚ)
    (vs : List LikedEntry) :
    (vs.filter (isSelectedPred dur thr)).length +
      (vs.filter (isRetainedPred dur thr)).length +
      (vs.filter (isUnresolvedPred dur)).length = vs.length := by
  induction vs with
  | nil => rfl
  | cons v rest ih =>
    cases h : dur v.id with
    | none =>
      have e1 : isSelectedPred dur thr v = false := by simp [isSelectedPred, h]
      have e2 : isRetainedPred dur thr v = false := by simp [isRetainedPred, h]
      have e3 : isUnresolvedPred dur v = true := by simp [isUnresolvedPred, h]
      rw [List.filter_cons, List.filter_cons, List.filter_cons, e1, e2, e3]
      simp only [Bool.false_eq_true, if_false, if_true, List.length_cons,
        ite_true, ite_false]
      omega
    | some d =>
      by_cases hd : d < thr
      · have e1 : isSelectedPred dur thr v = true := by simp [isSelectedPred, h, hd]
        have e2 : isRetainedPred dur thr v = false := by simp [isRetainedPred, h, hd]
        have e3 : isUnresolvedPred dur v = false := by simp [isUnresolvedPred, h]
        rw [List.filter_cons, List.filter_cons, List.filter_cons, e1, e2, e3]
        simp only [Bool.false_eq_true, if_false, if_true, List.length_cons,
          ite_true, ite_false]
        omega
      · have e1 : isSelectedPred dur thr v = false := by simp [isSelectedPred, h, hd]
        have e2 : isRetainedPred dur thr v = true := by simp [isRetainedPred, h, hd]
        have e3 : isUnresolvedPred dur v = false := by simp [isUnresolvedPred, h]
        rw [List.filter_cons, List.filter_cons, List.filter_cons, e1, e2, e3]
        simp only [Bool.false_eq_true, if_false, if_true, List.length_cons,
          ite_true, ite_false]
        omega

/-- Selected, retained and unresolved entries partition the input by
count. -/
theorem find_videos_count_partition (dur : String → Option ℚ) (thr : ℚ)
    (vs : List LikedEntry) :
    (find_videos_to_unlike dur thr vs).1.length +
      (retainedEntries dur thr vs).length +
      (unresolvedEntries dur vs).length = vs.length := by
  have hsel := congrArg List.length (find_videos_map_entry dur thr vs)
  rw [List.length_map] at hsel
  rw [retainedEntries, unresolvedEntries, hsel]
  exact filter_partition_aux dur thr vs

/-- C1: the filter selects exactly the entries whose resolved duration is
strictly below the threshold — an entry resolving to exactly the
threshold is retained — and the selected entries are an ordered
subsequence of the input. (src/main.py lines 197-206.) -/
theorem filter_selects_iff_below_threshold (dur : String → Option ℚ)
    (thr : ℚ) (vs : List LikedEntry) :
    (∀ s : SelectedVideo,
        s ∈ (find_videos_to_unlike dur thr vs).1 ↔
          s.entry ∈ vs ∧ dur s.entry.id = some s.duration_minutes ∧
            s.duration_minutes < thr) ∧
      (∀ v ∈ vs, dur v.id = some thr →
        ∀ s ∈ (find_videos_to_unlike dur thr vs).1, s.entry ≠ v) ∧
      ((find_videos_to_unlike dur thr vs).1.map SelectedVideo.entry).Sublist vs := by
  refine ⟨fun s => mem_find_videos_iff dur thr vs s, ?_, ?_⟩
  · intro v _ hv s hs hse
    rcases (mem_find_videos_iff dur thr vs s).1 hs with ⟨_, h2, h3⟩
    rw [hse, hv] at h2
    have h4 : thr = s.duration_minutes := Option.some.inj h2
    rw [← h4] at h3
    exact absurd h3 (lt_irrefl thr)
  · rw [find_videos_map_entry]
    exact List.filter_sublist vs

/-- C4: an entry whose id is absent from the duration index is never
selected for removal, receives a warning, does not stop the filter
(never fatal: the pass continues past it unchanged), and is counted
separately from the selected and retained entries. (src/main.py lines
198-202.) -/
theorem unresolved_never_selected (dur : String → Option ℚ) (thr : ℚ)
    (vs : List LikedEntry) (v : LikedEntry) (hv : v ∈ vs)
    (hnone : dur v.id = none) :
    (∀ s ∈ (find_videos_to_unlike dur thr vs).1, s.entry.id ≠ v.id) ∧
    v ∈ (find_videos_to_unlike dur thr vs).2 ∧
    (∀ rest, find_videos_to_unlike dur thr (v :: rest) =
      ((find_videos_to_unlike dur thr rest).1,
        v :: (find_videos_to_unlike dur thr rest).2)) ∧
    (find_videos_to_unlike dur thr vs).1.length +
      (retainedEntries dur thr vs).length +
      (unresolvedEntries dur vs).length = vs.length := by
  refine ⟨?_, ?_, ?_, find_videos_count_partition dur thr vs⟩
  · intro s hs heq
    rcases (mem_find_videos_iff dur thr vs s).1 hs with ⟨_, h2, _⟩
    rw [heq, hnone] at h2
    cases h2
  · rw [find_videos_warned]
    exact List.mem_filter.2 ⟨hv, by simp [isUnresolvedPred, hnone]⟩
  · intro rest
    simp [find_videos_to_unlike, hnone]

/-! ## Lemmas about the remover -/

/-- C5: when the first K deletion calls succeed and the next raises a
quota-exhaustion error, `unlike_videos` stops at once — the failing call
is the last one issued — and returns the count K. (src/main.py lines
137-159.) -/
theorem unlike_stops_on_quota (del : SelectedVideo → CallResult)
    (pre : List SelectedVideo) (v : SelectedVideo)
    (post : List SelectedVideo) (m : String)
    (hpre : ∀ u ∈ pre, del u = CallResult.ok)
    (hv : del v = CallResult.err m) (hq : isQuotaError m = true) :
    unlike_videos del (pre ++ v :: post) = pre.length ∧
    unlikeCalls del (pre ++ v :: post) =
      (pre ++ [v]).map fun u => u.entry.playlist_item_id := by
  induction pre with
  | nil => simp [unlike_videos, unlikeCalls, hv, hq]
  | cons u pre ih =>
    have hu : del u = CallResult.ok := hpre u (List.mem_cons_self u pre)
    have hrec := ih fun x hx => hpre x (List.mem_cons_of_mem u hx)
    constructor
    · rw [List.cons_append]
      simp only [unlike_videos, hu, hrec.1, List.length_cons]
    · rw [List.cons_append]
      simp only [unlikeCalls, hu, hrec.2, List.cons_append, List.map_cons]

/-- C10: the remover is total on its model — it returns a count bounded
by the input length, equal to the number of issued deletion calls that
succeeded, and a non-quota failure on one entry leaves the processing of
the later entries unchanged. (src/main.py lines 137-159.) -/
theorem unlike_videos_count_bounds (del : SelectedVideo → CallResult)
    (vs : List SelectedVideo) :
    unlike_videos del vs ≤ vs.length ∧
    unlike_videos del vs = (issuedResults del vs).countP isOkResult ∧
    (∀ v rest m, del v = CallResult.err m → isQuotaError m = false →
      unlike_videos del (v :: rest) = unlike_videos del rest) := by
  refine ⟨?_, ?_, ?_⟩
  · induction vs with
    | nil => simp [unlike_videos]
    | cons v rest ih =>
      simp only [unlike_videos, List.length_cons]
      cases hdel : del v with
      | ok => exact Nat.succ_le_succ ih
      | err m =>
        by_cases hq : isQuotaError m
        · simp [hq]
        · simp [hq]; omega
  · induction vs with
    | nil => rfl
    | cons v rest ih =>
      simp only [unlike_videos, issuedResults]
      cases hdel : del v with
      | ok => simp [List.countP_cons, isOkResult, ih]
      | err m =>
        by_cases hq : isQuotaError m <;>
          simp [hq, List.countP_cons, isOkResult, ih]
  · intro v rest m h1 h2
    simp [unlike_videos, h1, h2]

/-- C3 amended: a non-quota remote-call error is reported (its message
enters the printed-error trace) but the enclosing loop does NOT abort —
the removal loop moves on to the next entry, the page-fetch loop runs
another iteration retrying the same page token; only a quota-exhaustion
error aborts the loop with the partial results accumulated so far.
(src/main.py lines 96-101 and 152-157.) -/
theorem nonquota_error_reported_loop_continues
    (del : SelectedVideo → CallResult)
    (fetch : Nat → Option String → FetchResult) (v : SelectedVideo)
    (rest : List SelectedVideo) (m : String) (fuel attempt : Nat)
    (tok : Option String) (acc : List LikedEntry) :
    (del v = CallResult.err m → isQuotaError m = false →
      unlikeErrors del (v :: rest) = m :: unlikeErrors del rest ∧
      unlike_videos del (v :: rest) = unlike_videos del rest ∧
      unlikeCalls del (v :: rest) =
        v.entry.playlist_item_id :: unlikeCalls del rest) ∧
    (del v = CallResult.err m → isQuotaError m = true →
      unlikeErrors del (v :: rest) = [m] ∧
      unlike_videos del (v :: rest) = 0 ∧
      unlikeCalls del (v :: rest) = [v.entry.playlist_item_id]) ∧
    (fetch attempt tok = FetchResult.err m → isQuotaError m = false →
      get_liked_videos fetch (fuel + 1) attempt tok acc =
        get_liked_videos fetch fuel (attempt + 1) tok acc) ∧
    (fetch attempt tok = FetchResult.err m → isQuotaError m = true →
      get_liked_videos fetch (fuel + 1) attempt tok acc = acc) := by
  refine ⟨?_, ?_, ?_, ?_⟩ <;> intro h1 h2 <;>
    simp [unlikeErrors, unlike_videos, unlikeCalls, get_liked_videos, h1, h2]

/-! ## Concrete data for witnesses and counterexamples -/

/-- A short video entry. -/
def wEntryA : LikedEntry := ⟨"a", "pa", "Short"⟩

/-- A video entry of exactly the threshold duration. -/
def wEntryB : LikedEntry := ⟨"b", "pb", "Long"⟩

/-- An entry whose duration never resolves. -/
def wEntryC : LikedEntry := ⟨"c", "pc", "NoDur"⟩

/-- A duration index: `a` resolves to 2 minutes, `b` to 5, `c` missing. -/
def wDur : String → Option ℚ := fun i =>
  if i = "a" then some 2 else if i = "b" then some 5 else none

/-- A three-entry liked list. -/
def wVideos : List LikedEntry := [wEntryA, wEntryB, wEntryC]

/-- Deletion oracle failing with a non-quota error on item `p1` only. -/
def cDelBoom : SelectedVideo → CallResult := fun v =>
  if v.entry.playlist_item_id = "p1" then CallResult.err "boom"
  else CallResult.ok

/-- First selected test entry (item id `p1`). -/
def cv1 : SelectedVideo := ⟨⟨"a", "p1", "A"⟩, 1⟩

/-- Second selected test entry (item id `p2`). -/
def cv2 : SelectedVideo := ⟨⟨"b", "p2", "B"⟩, 1⟩

/-- Counterexample to C3 as stated: the first deletion call fails with
the non-quota error "boom"; the claim says the removal loop then aborts
and returns the partial results accumulated so far (0 successes), but
the code continues — the second call is still issued, succeeds, and the
run returns 1. -/
theorem nonquota_error_does_not_abort_cex :
    unlike_videos cDelBoom [cv1, cv2] = 1 ∧
    unlikeCalls cDelBoom [cv1, cv2] = ["p1", "p2"] ∧
    unlikeErrors cDelBoom [cv1, cv2] = ["boom"] ∧
    unlike_videos cDelBoom [cv1, cv2] ≠ 0 := by decide

/-- Witness for the amended C3 at the same concrete input, plus a page
fetch that errs without quota on attempt 0 and succeeds on attempt 1. -/
theorem nonquota_error_loop_continues_witness :
    (unlikeErrors cDelBoom [cv1, cv2] = "boom" :: unlikeErrors cDelBoom [cv2] ∧
      unlike_videos cDelBoom [cv1, cv2] = unlike_videos cDelBoom [cv2] ∧
      unlikeCalls cDelBoom [cv1, cv2] = "p1" :: unlikeCalls cDelBoom [cv2]) ∧
    (get_liked_videos
        (fun attempt _ => if attempt = 0 then FetchResult.err "boom"
          else FetchResult.page [wEntryA] none) 2 0 none [] =
      get_liked_videos
        (fun attempt _ => if attempt = 0 then FetchResult.err "boom"
          else FetchResult.page [wEntryA] none) 1 1 none []) := by
  constructor
  · exact (nonquota_error_reported_loop_continues cDelBoom
      (fun attempt _ => if attempt = 0 then FetchResult.err "boom"
        else FetchResult.page [wEntryA] none)
      cv1 [cv2] "boom" 1 0 none []).1 (by decide) (by decide)
  · exact (nonquota_error_reported_loop_continues cDelBoom
      (fun attempt _ => if attempt = 0 then FetchResult.err "boom"
        else FetchResult.page [wEntryA] none)
      cv1 [cv2] "boom" 1 0 none []).2.2.1 (by decide) (by decide)

/-! ## Lemmas about `mainRun` -/

/-- `finishRun` never changes the selection. -/
theorem finishRun_selected (args : Args) (del : SelectedVideo → CallResult)
    (sel rem : List SelectedVideo) :
    (finishRun args del sel rem).selected = sel := by
  unfold finishRun
  by_cases h : rem = [] <;> by_cases hd : args.dry_run <;> simp [h, hd]

/-- `finishRun` never changes the remaining list. -/
theorem finishRun_remaining (args : Args) (del : SelectedVideo → CallResult)
    (sel rem : List SelectedVideo) :
    (finishRun args del sel rem).remaining = rem := by
  unfold finishRun
  by_cases h : rem = [] <;> by_cases hd : args.dry_run <;> simp [h, hd]

/-- Outside dry-run mode, `finishRun` passes exactly the first
`batch_size` remaining entries to the remover. -/
theorem finishRun_processed (args : Args) (del : SelectedVideo → CallResult)
    (sel rem : List SelectedVideo) (hd : args.dry_run = false) :
    (finishRun args del sel rem).processed = rem.take args.batch_size := by
  unfold finishRun
  by_cases h : rem = [] <;> simp [h, hd]

/-- The calls and count of `finishRun` come from running the remover on
its processed list, which holds at most `batch_size` entries. -/
theorem finishRun_calls_count (args : Args) (del : SelectedVideo → CallResult)
    (sel rem : List SelectedVideo) :
    (finishRun args del sel rem).calls =
      unlikeCalls del (finishRun args del sel rem).processed ∧
    (finishRun args del sel rem).count =
      unlike_videos del (finishRun args del sel rem).processed ∧
    (finishRun args del sel rem).processed.length ≤ args.batch_size := by
  unfold finishRun
  by_cases h : rem = [] <;> by_cases hd : args.dry_run <;>
    simp [h, hd, unlikeCalls, unlike_videos, List.length_take]

/-- In dry-run mode `finishRun` issues no calls and counts nothing. -/
theorem finishRun_dry (args : Args) (del : SelectedVideo → CallResult)
    (sel rem : List SelectedVideo) (hd : args.dry_run = true) :
    (finishRun args del sel rem).calls = [] ∧
    (finishRun args del sel rem).count = 0 ∧
    (finishRun args del sel rem).processed = [] := by
  unfold finishRun
  by_cases h : rem = [] <;> simp [h, hd]

/-- Every run of `main` either exits before reaching the removal stage
with nothing remaining, no calls and count 0, or hands the selection
sliced at `start_index` to `finishRun`. -/
theorem mainRun_split (args : Args) (dur : String → Option ℚ)
    (del : SelectedVideo → CallResult) (videos : List LikedEntry) :
    ((mainRun args dur del videos).remaining = [] ∧
      (mainRun args dur del videos).processed = [] ∧
      (mainRun args dur del videos).calls = [] ∧
      (mainRun args dur del videos).count = 0) ∨
    mainRun args dur del videos =
      finishRun args del (find_videos_to_unlike dur args.min_duration videos).1
        ((find_videos_to_unlike dur args.min_duration videos).1.drop
          args.start_index) := by
  cases videos with
  | nil => exact Or.inl ⟨rfl, rfl, rfl, rfl⟩
  | cons v vs =>
    unfold mainRun
    by_cases h0 : 0 < args.start_index
    · by_cases h1 : ((find_videos_to_unlike dur args.min_duration
          (v :: vs)).1).length ≤ args.start_index
      · exact Or.inl (by simp [h0, h1])
      · exact Or.inr (by simp [h0, h1])
    · have h0' : args.start_index = 0 := by omega
      exact Or.inr (by simp [h0, h0'])

/-- `main` reaches `finishRun` on the sliced selection whenever the
start index is below the selection size. -/
theorem mainRun_eq_finishRun (args : Args) (dur : String → Option ℚ)
    (del : SelectedVideo → CallResult) (v : LikedEntry)
    (vs : List LikedEntry)
    (hK : args.start_index <
      ((find_videos_to_unlike dur args.min_duration (v :: vs)).1).length) :
    mainRun args dur del (v :: vs) =
      finishRun args del (find_videos_to_unlike dur args.min_duration (v :: vs)).1
        ((find_videos_to_unlike dur args.min_duration (v :: vs)).1.drop
          args.start_index) := by
  unfold mainRun
  by_cases h0 : 0 < args.start_index
  · simp [h0, Nat.not_le.mpr hK]
  · have h0' : args.start_index = 0 := by omega
    simp [h0, h0']

/-- The selection a run computes depends only on the liked list, the
duration index and the threshold (not on the deletion oracle, the
dry-run flag, the batch size); the remaining list additionally depends
only on the start index. -/
theorem mainRun_selection_indep (a1 a2 : Args) (dur : String → Option ℚ)
    (del1 del2 : SelectedVideo → CallResult) (videos : List LikedEntry)
    (hmin : a1.min_duration = a2.min_duration)
    (hsi : a1.start_index = a2.start_index) :
    (mainRun a1 dur del1 videos).selected =
      (mainRun a2 dur del2 videos).selected ∧
    (mainRun a1 dur del1 videos).remaining =
      (mainRun a2 dur del2 videos).remaining := by
  cases videos with
  | nil => exact ⟨rfl, rfl⟩
  | cons v vs =>
    unfold mainRun
    rw [hmin, hsi]
    by_cases h0 : 0 < a2.start_index
    · by_cases h1 : ((find_videos_to_unlike dur a2.min_duration
          (v :: vs)).1).length ≤ a2.start_index
      · simp [h0, h1]
      · simp [h0, h1, finishRun_selected, finishRun_remaining]
    · simp [h0, finishRun_selected, finishRun_remaining]

/-- Shorthand for `(mainRun args dur del (v :: vs)).selected`: the filter
output, whichever branch the run takes. -/
theorem mainRun_selected_eq (args : Args) (dur : String → Option ℚ)
    (del : SelectedVideo → CallResult) (v : LikedEntry)
    (vs : List LikedEntry) :
    (mainRun args dur del (v :: vs)).selected =
      (find_videos_to_unlike dur args.min_duration (v :: vs)).1 := by
  unfold mainRun
  by_cases h0 : 0 < args.start_index
  · by_cases h1 : ((find_videos_to_unlike dur args.min_duration
        (v :: vs)).1).length ≤ args.start_index
    · simp [h0, h1]
    · simp [h0, h1, finishRun_selected]
  · simp [h0, finishRun_selected]

/-- The remover issues at most one deletion call per input entry. -/
theorem unlikeCalls_length_le (del : SelectedVideo → CallResult)
    (vs : List SelectedVideo) :
    (unlikeCalls del vs).length ≤ vs.length := by
  induction vs with
  | nil => simp [unlikeCalls]
  | cons v rest ih =>
    simp only [unlikeCalls, List.length_cons]
    cases hdel : del v with
    | ok => exact Nat.succ_le_succ ih
    | err m =>
      by_cases hq : isQuotaError m
      · simp [hq]
      · simp only [hq, Bool.false_eq_true, if_false]
        omega

/-- With an error-free oracle the remover unlikes every entry it is
given. -/
theorem unlike_videos_all_ok (del : SelectedVideo → CallResult)
    (vs : List SelectedVideo) (h : ∀ u ∈ vs, del u = CallResult.ok) :
    unlike_videos del vs = vs.length := by
  induction vs with
  | nil => rfl
  | cons v rest ih =>
    have hv := h v (List.mem_cons_self v rest)
    simp only [unlike_videos, hv, List.length_cons]
    rw [ih fun u hu => h u (List.mem_cons_of_mem v hu)]

/-- C2 corrected: a run resumed at start-index K < P (P the selection
size) computes as remaining exactly the last P−K selected entries, in
the original order, and passes the first `batch_size` of them to the
remover — which is all P−K exactly when P−K ≤ batch_size.
(src/main.py lines 212-217 and 227-237.) -/
theorem resumed_run_processes_suffix (args : Args) (dur : String → Option ℚ)
    (del : SelectedVideo → CallResult) (videos : List LikedEntry)
    (hdry : args.dry_run = false)
    (hK : args.start_index < (mainRun args dur del videos).selected.length) :
    (mainRun args dur del videos).remaining =
      (mainRun args dur del videos).selected.drop args.start_index ∧
    (mainRun args dur del videos).remaining.length =
      (mainRun args dur del videos).selected.length - args.start_index ∧
    (mainRun args dur del videos).processed =
      (mainRun args dur del videos).remaining.take args.batch_size ∧
    ((mainRun args dur del videos).selected.length - args.start_index ≤
        args.batch_size →
      (mainRun args dur del videos).processed =
        (mainRun args dur del videos).selected.drop args.start_index) := by
  cases videos with
  | nil => simp [mainRun] at hK
  | cons v vs =>
    rw [mainRun_selected_eq] at hK
    rw [mainRun_eq_finishRun args dur del v vs hK]
    rw [finishRun_selected, finishRun_remaining,
      finishRun_processed _ _ _ _ hdry]
    refine ⟨rfl, List.length_drop _ _, rfl, ?_⟩
    intro hle
    rw [List.take_of_length_le]
    rw [List.length_drop]
    exact hle

/-- C8: with `--dry-run` set the run issues no deletion calls and
unlikes nothing, while computing the same selection and the same
remaining list as the non-dry-run invocation on the same inputs.
(src/main.py lines 227-232.) -/
theorem dry_run_no_calls_same_selection (args : Args)
    (dur : String → Option ℚ) (del : SelectedVideo → CallResult)
    (videos : List LikedEntry) (hdry : args.dry_run = true) :
    (mainRun args dur del videos).calls = [] ∧
    (mainRun args dur del videos).count = 0 ∧
    (mainRun args dur del videos).processed = [] ∧
    (mainRun args dur del videos).selected =
      (mainRun (Args.mk args.min_duration false args.batch_size
        args.start_index) dur del videos).selected ∧
    (mainRun args dur del videos).remaining =
      (mainRun (Args.mk args.min_duration false args.batch_size
        args.start_index) dur del videos).remaining := by
  have hind := mainRun_selection_indep args
    (Args.mk args.min_duration false args.batch_size args.start_index)
    dur del del videos rfl rfl
  have hdry3 : (mainRun args dur del videos).calls = [] ∧
      (mainRun args dur del videos).count = 0 ∧
      (mainRun args dur del videos).processed = [] := by
    rcases mainRun_split args dur del videos with ⟨_, hp, hc, hn⟩ | heq
    · exact ⟨hc, hn, hp⟩
    · rw [heq]
      exact finishRun_dry args del _ _ hdry
  exact ⟨hdry3.1, hdry3.2.1, hdry3.2.2, hind.1, hind.2⟩

/-- C9: a single run issues at most `batch_size` deletion calls — the
remover receives exactly the first `batch_size` entries remaining after
the start-index slice, leaving later selected entries to a resumed run —
and with an error-free oracle the count equals the size of that capped
list. (src/main.py lines 169-170 and 232.) -/
theorem at_most_batch_size_calls (args : Args) (dur : String → Option ℚ)
    (del : SelectedVideo → CallResult) (videos : List LikedEntry) :
    (mainRun args dur del videos).calls.length ≤ args.batch_size ∧
    (mainRun args dur del videos).processed.length ≤ args.batch_size ∧
    (args.dry_run = false →
      (mainRun args dur del videos).processed =
        (mainRun args dur del videos).remaining.take args.batch_size) ∧
    ((∀ u, del u = CallResult.ok) →
      (mainRun args dur del videos).count =
        (mainRun args dur del videos).processed.length) := by
  rcases mainRun_split args dur del videos with ⟨hr, hp, hc, hn⟩ | heq
  · rw [hc, hp, hr, hn]
    simp
  · rw [heq]
    obtain ⟨hc, hn, hlen⟩ := finishRun_calls_count args del
      (find_videos_to_unlike dur args.min_duration videos).1
      ((find_videos_to_unlike dur args.min_duration videos).1.drop
        args.start_index)
    refine ⟨?_, hlen, ?_, ?_⟩
    · rw [hc]
      exact le_trans (unlikeCalls_length_le del _) hlen
    · intro hdry
      rw [finishRun_processed _ _ _ _ hdry, finishRun_remaining]
    · intro hok
      rw [hn]
      exact unlike_videos_all_ok del _ fun u _ => hok u

/-! ## Lemmas about the duration resolver -/

/-- The resolver's batch slices: one chunk per 50 ids, `⌈M/50⌉` in all. -/
theorem chunks50_length (ids : List String) :
    (chunks50 ids).length = (ids.length + 49) / 50 := by
  induction ids using chunks50.induct with
  | case1 => simp [chunks50]
  | case2 i ids ih =>
    rw [chunks50]
    rw [List.length_cons, ih, List.length_drop]
    rw [List.length_cons]
    omega

/-- Every batch slice holds at most 50 ids. -/
theorem chunks50_le_50 (ids : List String) :
    ∀ b ∈ chunks50 ids, b.length ≤ 50 := by
  induction ids using chunks50.induct with
  | case1 => intro b hb; simp [chunks50] at hb
  | case2 i ids ih =>
    rw [chunks50]
    intro b hb
    rcases List.mem_cons.1 hb with rfl | hb
    · exact List.length_take_le 50 _
    · exact ih b hb

/-- Inserting a fresh key appends it at the end of the dict. -/
theorem dictInsert_fresh (store : List (String × ℚ)) (k : String) (v : ℚ)
    (h : ∀ q ∈ store, q.1 ≠ k) :
    dictInsert store k v = store ++ [(k, v)] := by
  induction store with
  | nil => rfl
  | cons q store ih =>
    rw [dictInsert]
    rw [if_neg (h q (List.mem_cons_self q store))]
    rw [ih fun r hr => h r (List.mem_cons_of_mem q hr)]
    rw [List.cons_append]

/-- Keys appearing in a parsed batch mapping come from the raw response. -/
theorem parsedMap_keys (xs : List (String × String)) (p : String × ℚ)
    (hp : p ∈ parsedMap xs) : ∃ q ∈ xs, q.1 = p.1 := by
  rcases List.mem_filterMap.1 hp with ⟨q, hq, he⟩
  cases hpd : parse_duration q.2 with
  | none => rw [hpd] at he; cases he
  | some secs =>
    rw [hpd] at he
    refine ⟨q, hq, ?_⟩
    cases he
    rfl

/-- Storing a batch whose keys are fresh and whose durations all parse
appends the parsed per-batch mapping to the store. -/
theorem storeItems_fresh (xs : List (String × String)) :
    ∀ store : List (String × ℚ),
    (List.map Prod.fst xs).Nodup →
    (∀ p ∈ xs, (parse_duration p.2).isSome = true) →
    (∀ p ∈ xs, ∀ q ∈ store, q.1 ≠ p.1) →
    storeItems xs store = store ++ parsedMap xs := by
  induction xs with
  | nil =>
    intro store _ _ _
    simp [storeItems, parsedMap]
  | cons p xs ih =>
    intro store hnd hparse hfresh
    obtain ⟨vid, dstr⟩ := p
    cases hp : parse_duration dstr with
    | none =>
      have := hparse (vid, dstr) (List.mem_cons_self _ _)
      rw [hp] at this
      cases this
    | some secs =>
      simp only [storeItems, hp]
      rw [dictInsert_fresh store vid (durationMinutes secs)
        (fun q hq => hfresh (vid, dstr) (List.mem_cons_self _ _) q hq)]
      have hnd' : (List.map Prod.fst xs).Nodup :=
        (List.nodup_cons.1 (by simpa using hnd)).2
      have hvid : vid ∉ List.map Prod.fst xs :=
        (List.nodup_cons.1 (by simpa using hnd)).1
      rw [ih (store ++ [(vid, durationMinutes secs)]) hnd'
        (fun q hq => hparse q (List.mem_cons_of_mem _ hq))
        ?_]
      · simp [parsedMap, hp]
      · intro q hq r hr
        rcases List.mem_append.1 hr with hr | hr
        · exact hfresh q (List.mem_cons_of_mem _ hq) r hr
        · rcases List.mem_singleton.1 hr with rfl
          intro he
          have he' : vid = q.1 := he
          exact hvid (he' ▸ List.mem_map_of_mem Prod.fst hq)

/-- With distinct ids and an error-free lookup whose responses stay
inside the requested batch, the batch loop issues exactly the successive
50-id slices as requests and its store is the concatenation of the
per-batch parsed mappings after the initial store. -/
theorem durFetch_ok (lookup : List String → LookupResult)
    (resp : List String → List (String × String)) (ids : List String) :
    ∀ store : List (String × ℚ),
    ids.Nodup →
    (∀ b ∈ chunks50 ids, lookup b = LookupResult.items (resp b)) →
    (∀ b ∈ chunks50 ids, (List.map Prod.fst (resp b)).Nodup) →
    (∀ b ∈ chunks50 ids, ∀ p ∈ resp b, p.1 ∈ b) →
    (∀ b ∈ chunks50 ids, ∀ p ∈ resp b, (parse_duration p.2).isSome = true) →
    (∀ p ∈ store, ∀ i ∈ ids, p.1 ≠ i) →
    durFetch lookup ids store =
      (store ++ ((chunks50 ids).map fun b => parsedMap (resp b)).flatten,
        chunks50 ids) := by
  induction ids using chunks50.induct with
  | case1 =>
    intro store _ _ _ _ _ _
    simp [durFetch, chunks50]
  | case2 i ids ih =>
    intro store hnd h1 h2 h3 h4 hfresh
    have hbatch : (i :: ids).take 50 ∈ chunks50 (i :: ids) := by
      rw [chunks50]
      exact List.mem_cons_self _ _
    have hmemtail : ∀ b ∈ chunks50 ((i :: ids).drop 50),
        b ∈ chunks50 (i :: ids) := by
      intro b hb
      rw [chunks50]
      exact List.mem_cons_of_mem _ hb
    have hstore : storeItems (resp ((i :: ids).take 50)) store =
        store ++ parsedMap (resp ((i :: ids).take 50)) := by
      refine storeItems_fresh _ store (h2 _ hbatch) (h4 _ hbatch) ?_
      intro p hp q hq
      exact hfresh q hq p.1 (List.mem_of_mem_take (h3 _ hbatch p hp))
    have hrec := ih (store ++ parsedMap (resp ((i :: ids).take 50)))
      (List.Sublist.nodup (List.drop_sublist 50 _) hnd)
      (fun b hb => h1 b (hmemtail b hb))
      (fun b hb => h2 b (hmemtail b hb))
      (fun b hb => h3 b (hmemtail b hb))
      (fun b hb => h4 b (hmemtail b hb))
      ?_
    · simp only [durFetch, h1 _ hbatch]
      rw [hstore, hrec]
      rw [chunks50]
      simp [List.append_assoc]
    · intro p hp x hx
      rcases List.mem_append.1 hp with hp | hp
      · exact hfresh p hp x (List.mem_of_mem_drop hx)
      · rcases parsedMap_keys _ p hp with ⟨q, hq, he⟩
        intro hpe
        have hqb : q.1 ∈ (i :: ids).take 50 := h3 _ hbatch q hq
        have : q.1 ∈ (i :: ids).drop 50 := by
          rw [he, hpe]
          exact hx
        exact List.disjoint_take_drop hnd (le_refl 50) hqb this

/-- C6: on M distinct ids, with an error-free lookup whose per-batch
responses map only requested ids (one item per id, every duration
parsing), the resolver issues exactly ⌈M/50⌉ requests — the successive
50-id slices, each of at most 50 ids — and its output is the
concatenation (the disjoint union) of the mappings the individual
requests return. (src/main.py lines 105-135.) -/
theorem resolver_batches (lookup : List String → LookupResult)
    (resp : List String → List (String × String)) (ids : List String)
    (h0 : ids.Nodup)
    (h1 : ∀ b ∈ chunks50 ids, lookup b = LookupResult.items (resp b))
    (h2 : ∀ b ∈ chunks50 ids, (List.map Prod.fst (resp b)).Nodup)
    (h3 : ∀ b ∈ chunks50 ids, ∀ p ∈ resp b, p.1 ∈ b)
    (h4 : ∀ b ∈ chunks50 ids, ∀ p ∈ resp b,
      (parse_duration p.2).isSome = true) :
    durRequests lookup ids = chunks50 ids ∧
    (durRequests lookup ids).length = (ids.length + 49) / 50 ∧
    (∀ b ∈ durRequests lookup ids, b.length ≤ 50) ∧
    get_video_durations lookup ids =
      ((chunks50 ids).map fun b => parsedMap (resp b)).flatten := by
  have h := durFetch_ok lookup resp ids [] h0 h1 h2 h3 h4
    (by intro p hp; cases hp)
  have hreq : durRequests lookup ids = chunks50 ids := by
    rw [durRequests, h]
  have hout : get_video_durations lookup ids =
      ((chunks50 ids).map fun b => parsedMap (resp b)).flatten := by
    rw [get_video_durations, h]
    simp
  refine ⟨hreq, ?_, ?_, hout⟩
  · rw [hreq, chunks50_length]
  · rw [hreq]
    exact chunks50_le_50 ids

/-- C7: the ISO-8601 duration "PT1H2M3S" parses to 3723 total seconds,
3723 / 60 gives 62.05 minutes, and the resolver's item step stores
exactly that value under the video id. (src/main.py lines 119-125.) -/
theorem duration_pt1h2m3s_is_62_05 :
    parse_duration "PT1H2M3S" = some 3723 ∧
    durationMinutes 3723 = 62.05 ∧
    storeItems [("x", "PT1H2M3S")] [] = [("x", (62.05 : ℚ))] := by
  refine ⟨by decide, ?_, ?_⟩
  · rw [durationMinutes]
    norm_num
  · have h : durationMinutes 3723 = 62.05 := by rw [durationMinutes]; norm_num
    simp only [storeItems]
    rw [show parse_duration "PT1H2M3S" = some 3723 from by decide]
    simp only [storeItems, dictInsert, h]

/-! ## Witnesses and counterexamples at concrete inputs -/

/-- Witness for C1 at a concrete liked list: the 2-minute video is
selected, no selected entry is the video of exactly threshold length. -/
theorem filter_selects_iff_below_threshold_witness :
    (⟨wEntryA, 2⟩ : SelectedVideo) ∈ (find_videos_to_unlike wDur 5 wVideos).1 ∧
    (∀ s ∈ (find_videos_to_unlike wDur 5 wVideos).1, s.entry ≠ wEntryB) := by
  constructor
  · exact ((filter_selects_iff_below_threshold wDur 5 wVideos).1
      ⟨wEntryA, 2⟩).2 ⟨by decide, by decide, by decide⟩
  · exact (filter_selects_iff_below_threshold wDur 5 wVideos).2.1 wEntryB
      (by decide) (by decide)

/-- Witness for C4 at a concrete liked list with one unresolved entry. -/
theorem unresolved_never_selected_witness :
    (∀ s ∈ (find_videos_to_unlike wDur 5 wVideos).1,
      s.entry.id ≠ wEntryC.id) ∧
    wEntryC ∈ (find_videos_to_unlike wDur 5 wVideos).2 ∧
    (find_videos_to_unlike wDur 5 wVideos).1.length +
      (retainedEntries wDur 5 wVideos).length +
      (unresolvedEntries wDur wVideos).length = wVideos.length := by
  obtain ⟨h1, h2, _, h4⟩ :=
    unresolved_never_selected wDur 5 wVideos wEntryC (by decide) (by decide)
  exact ⟨h1, h2, h4⟩

/-- Five selected test entries with item ids q1..q5. -/
def qv1 : SelectedVideo := ⟨⟨"v1", "q1", "T1"⟩, 1⟩

/-- Second of the five test entries. -/
def qv2 : SelectedVideo := ⟨⟨"v2", "q2", "T2"⟩, 1⟩

/-- Third of the five test entries; its deletion hits the quota. -/
def qv3 : SelectedVideo := ⟨⟨"v3", "q3", "T3"⟩, 1⟩

/-- Fourth of the five test entries. -/
def qv4 : SelectedVideo := ⟨⟨"v4", "q4", "T4"⟩, 1⟩

/-- Fifth of the five test entries. -/
def qv5 : SelectedVideo := ⟨⟨"v5", "q5", "T5"⟩, 1⟩

/-- Deletion oracle raising a quota error on item `q3` only. -/
def quotaDel : SelectedVideo → CallResult := fun v =>
  if v.entry.playlist_item_id = "q3" then CallResult.err "quotaExceeded"
  else CallResult.ok

/-- Witness for C5: quota exhaustion on the 3rd of 5 removal calls
returns count 2, and no call past the 3rd is issued. -/
theorem unlike_stops_on_quota_witness :
    unlike_videos quotaDel [qv1, qv2, qv3, qv4, qv5] = 2 ∧
    unlikeCalls quotaDel [qv1, qv2, qv3, qv4, qv5] = ["q1", "q2", "q3"] := by
  have h := unlike_stops_on_quota quotaDel [qv1, qv2] qv3 [qv4, qv5]
    "quotaExceeded" (by decide) (by decide) (by decide)
  exact ⟨h.1, h.2⟩

/-- Witness for C10 at a list whose first deletion fails without quota:
the count stays bounded, equals the successful issued calls, and the
second entry is still processed. -/
theorem unlike_videos_count_bounds_witness :
    unlike_videos cDelBoom [cv1, cv2] ≤ 2 ∧
    unlike_videos cDelBoom [cv1, cv2] =
      (issuedResults cDelBoom [cv1, cv2]).countP isOkResult ∧
    unlike_videos cDelBoom (cv1 :: [cv2]) = unlike_videos cDelBoom [cv2] := by
  have h := unlike_videos_count_bounds cDelBoom [cv1, cv2]
  exact ⟨h.1, h.2.1, h.2.2 cv1 [cv2] "boom" (by decide) (by decide)⟩

/-- Arguments of the resumed run of the C2 counterexample: threshold 5,
live run, batch size 1, start index 1. -/
def c2Args : Args := ⟨5, false, 1, 1⟩

/-- A duration index resolving every id to 1 minute. -/
def c2Dur : String → Option ℚ := fun _ => some 1

/-- A deletion oracle on which every call succeeds. -/
def allOkDel : SelectedVideo → CallResult := fun _ => CallResult.ok

/-- Counterexample to C2 as stated: P = 3 entries are selected, the run
resumes at K = 1, so the claim requires it to process the P−K = 2
remaining entries; with `--batch-size 1` the code passes only one entry
to the remover and issues one deletion call. -/
theorem resumed_run_batch_cap_cex :
    (mainRun c2Args c2Dur allOkDel wVideos).selected.length = 3 ∧
    (mainRun c2Args c2Dur allOkDel wVideos).remaining.length = 2 ∧
    (mainRun c2Args c2Dur allOkDel wVideos).processed ≠
      (mainRun c2Args c2Dur allOkDel wVideos).selected.drop 1 ∧
    (mainRun c2Args c2Dur allOkDel wVideos).calls.length = 1 := by decide

/-- Arguments of the amended-C2 witness run: batch size 50 covers the
whole remainder. -/
def c2wArgs : Args := ⟨5, false, 50, 1⟩

/-- Witness for the amended C2: with the remainder below the batch size,
the resumed run's remaining list and remover input are exactly the
selection dropped by the start index. -/
theorem resumed_run_processes_suffix_witness :
    (mainRun c2wArgs c2Dur allOkDel wVideos).remaining =
      (mainRun c2wArgs c2Dur allOkDel wVideos).selected.drop 1 ∧
    (mainRun c2wArgs c2Dur allOkDel wVideos).processed =
      (mainRun c2wArgs c2Dur allOkDel wVideos).selected.drop 1 := by
  have h := resumed_run_processes_suffix c2wArgs c2Dur allOkDel wVideos
    rfl (by decide)
  exact ⟨h.1, h.2.2.2 (by decide)⟩

/-- Arguments of the dry-run witness. -/
def c8Args : Args := ⟨5, true, 50, 0⟩

/-- Witness for C8 at a concrete dry run. -/
theorem dry_run_no_calls_same_selection_witness :
    (mainRun c8Args wDur allOkDel wVideos).calls = [] ∧
    (mainRun c8Args wDur allOkDel wVideos).count = 0 ∧
    (mainRun c8Args wDur allOkDel wVideos).processed = [] ∧
    (mainRun c8Args wDur allOkDel wVideos).selected =
      (mainRun (Args.mk c8Args.min_duration false c8Args.batch_size
        c8Args.start_index) wDur allOkDel wVideos).selected ∧
    (mainRun c8Args wDur allOkDel wVideos).remaining =
      (mainRun (Args.mk c8Args.min_duration false c8Args.batch_size
        c8Args.start_index) wDur allOkDel wVideos).remaining :=
  dry_run_no_calls_same_selection c8Args wDur allOkDel wVideos rfl

/-- Arguments of the batch-cap witness: batch size 2 against 3 selected
entries. -/
def c9Args : Args := ⟨5, false, 2, 0⟩

/-- Witness for C9: 3 entries selected, batch size 2, error-free oracle:
2 calls issued, remover input is the first 2 remaining, count 2. -/
theorem at_most_batch_size_calls_witness :
    (mainRun c9Args c2Dur allOkDel wVideos).calls.length ≤ 2 ∧
    (mainRun c9Args c2Dur allOkDel wVideos).processed =
      (mainRun c9Args c2Dur allOkDel wVideos).remaining.take 2 ∧
    (mainRun c9Args c2Dur allOkDel wVideos).count =
      (mainRun c9Args c2Dur allOkDel wVideos).processed.length := by
  have h := at_most_batch_size_calls c9Args c2Dur allOkDel wVideos
  exact ⟨h.1, h.2.2.1 rfl, h.2.2.2 fun u => rfl⟩

/-- Raw per-batch response of the resolver witness lookup. -/
def wLookupResp : List String → List (String × String) := fun b =>
  b.map fun i => (i, if i = "a" then "PT2M" else "PT10M")

/-- Error-free lookup oracle of the resolver witness. -/
def wLookup : List String → LookupResult := fun b =>
  LookupResult.items (wLookupResp b)

/-- Witness for C6 on two distinct ids: one request, and the output is
the flattened per-request parsed mapping. -/
theorem resolver_batches_witness :
    durRequests wLookup ["a", "b"] = chunks50 ["a", "b"] ∧
    (durRequests wLookup ["a", "b"]).length = (2 + 49) / 50 ∧
    (∀ b ∈ durRequests wLookup ["a", "b"], b.length ≤ 50) ∧
    get_video_durations wLookup ["a", "b"] =
      ((chunks50 ["a", "b"]).map fun b => parsedMap (wLookupResp b)).flatten := by
  have h := resolver_batches wLookup wLookupResp ["a", "b"]
    (by decide)
    (fun b _ => rfl)
    (by
      intro b hb
      simp [chunks50] at hb
      subst hb
      decide)
    (by
      intro b hb
      simp [chunks50] at hb
      subst hb
      decide)
    (by
      intro b hb
      simp [chunks50] at hb
      subst hb
      decide)
  exact ⟨h.1, h.2.1, h.2.2.1, h.2.2.2⟩
